import Mathlib

/-!
# Verification of the phoebe distributed job-dispatch layer

Shallow embedding of `phoebe/backend/decorators.py`: the synthetic-result
merger `merge_synthetic`, the backend command builders inside
`construct_mpirun_command` (Slurm and Torque branches, including the Torque
status-polling loop), and the dispatch controller `do_run` produced by the
`mpirun` decorator.

Python values stored in a ParameterSet are modelled by `PValue`; a
ParameterSet is its `context` string plus an association list of entries in
iteration order (Python dict keys are unique, which proofs take as the
`nodupKeys` invariant where needed).  A Body is modelled by the list of
`syn`-type ParameterSets its `walk_type(type='syn')` traversal yields, in
traversal order.  External collaborator calls of the physics engine
(`fix_mesh`, `bin_oversampling`, `set_time`, `compute_pblum_or_l3`,
`set_pblum_or_l3`, `compute_scale_or_offset`, `postprocess`) mutate only the
physics state and are not modelled.  Fallible Python operations are embedded
in `Except String`, the error string naming the Python exception class.
-/

/-- An atomic Python value inside a list (number or string). -/
inductive PAtom : Type
  | aNum : Int → PAtom
  | aStr : String → PAtom
  deriving DecidableEq, Repr

/-- A Python value held by a ParameterSet entry: a list, a number or a
string.  The designated `columns` entry is a `vlist` of `aStr` names, as in
the source data model. -/
inductive PValue : Type
  | vlist : List PAtom → PValue
  | vnum : Int → PValue
  | vstr : String → PValue
  deriving DecidableEq, Repr

/-- A ParameterSet: its context string plus its entries in iteration order
(`for key in parset` iterates the keys in this order). -/
structure ParSet : Type where
  context : String
  entries : List (String × PValue)
  deriving DecidableEq, Repr

/-- A Body, represented by the ParameterSets its `walk_type(type='syn')`
traversal yields, in traversal order. -/
abbrev Body := List ParSet

/-- First value stored under a key (Python `parset[key]`, as an Option). -/
def lookupKey : List (String × PValue) → String → Option PValue
  | [], _ => none
  | (k', v') :: rest, k => if k' = k then some v' else lookupKey rest k

/-- Python `d[key] = v`: replace the value at the first occurrence of the
key, leaving the rest of the list untouched. -/
def setKey : List (String × PValue) → String → PValue → List (String × PValue)
  | [], _, _ => []
  | (k', v') :: rest, k, v =>
      if k' = k then (k', v) :: rest else (k', v') :: setKey rest k v

def ParSet.lookup (ps : ParSet) (k : String) : Option PValue :=
  lookupKey ps.entries k

/-- Python `key in parset`. -/
def ParSet.hasKey (ps : ParSet) (k : String) : Bool :=
  (ps.lookup k).isSome

def ParSet.set (ps : ParSet) (k : String) (v : PValue) : ParSet :=
  { ps with entries := setKey ps.entries k v }

/-- Python `key in parset['columns']`: membership of the key name in the
`columns` list (in the source data model `columns`, when present, is a list
of column-name strings). -/
def inColumns (ps : ParSet) (k : String) : Bool :=
  match ps.lookup "columns" with
  | some (.vlist l) => l.contains (PAtom.aStr k)
  | _ => false

/-- The skip condition of `merge_synthetic`:
`if 'columns' in parset and not key in parset['columns']: continue`. -/
def skipByColumns (rep : ParSet) (k : String) : Bool :=
  rep.hasKey "columns" && !(inColumns rep k)

/-- Python `iteration[0][key] += value` for a list `value`: raises
`KeyError` when the primary lacks the key and `TypeError` when the primary's
value is not a list; otherwise appends in place. -/
def pyListAdd (prim : ParSet) (k : String) (v : List PAtom) :
    Except String ParSet :=
  match prim.lookup k with
  | none => .error "KeyError"
  | some (.vlist l) => .ok (prim.set k (.vlist (l ++ v)))
  | some _ => .error "TypeError"

/-- The inner key loop of `merge_synthetic`: fold the listed entries of one
replica ParameterSet into the primary ParameterSet at the same position.
Only list values are appended; keys excluded by the replica's `columns`
membership are skipped. -/
def mergeKeys (rep : ParSet) :
    ParSet → List (String × PValue) → Except String ParSet
  | prim, [] => .ok prim
  | prim, (k, v) :: rest =>
      if skipByColumns rep k then mergeKeys rep prim rest
      else
        match v with
        | .vlist l => do
            let p ← pyListAdd prim k l
            mergeKeys rep p rest
        | _ => mergeKeys rep prim rest

/-- Fold one replica ParameterSet into the primary one, guarded by the
replica's context ending in `'syn'` (Python `parset.context[-3:] == 'syn'`). -/
def mergeOne (prim rep : ParSet) : Except String ParSet :=
  if rep.context.takeRight 3 = "syn" then mergeKeys rep prim rep.entries
  else .ok prim

/-- One step of Python `zip(*iterators)` over the replica bodies: the heads
of all replica walks, or `none` as soon as any replica walk is exhausted. -/
def popHeads : List Body → Option (List ParSet × List Body)
  | [] => some ([], [])
  | [] :: _ => none
  | (h :: t) :: bs =>
      match popHeads bs with
      | none => none
      | some (hs, ts) => some (h :: hs, t :: ts)

/-- The lockstep `zip(*iterators)` walk of `merge_synthetic`: at each
position fold every replica's ParameterSet into the primary's; the zip stops
at the shortest walk, so positions of the primary beyond it are returned
untouched. -/
def mergeBodies : Body → List Body → Except String Body
  | [], _ => .ok []
  | ps :: ptl, rest =>
      match popHeads rest with
      | none => .ok (ps :: ptl)
      | some (heads, tails) => do
          let merged ← heads.foldlM mergeOne ps
          let tl ← mergeBodies ptl tails
          pure (merged :: tl)

/-- `merge_synthetic(list_of_bodies)`: merge the synthetic data of all later
bodies into the first one, in place, and return the first body.  An empty
list raises `IndexError` at the final `list_of_bodies[0]`. -/
def merge_synthetic : List Body → Except String Body
  | [] => .error "IndexError"
  | primary :: rest => mergeBodies primary rest

section MergeSanity

def lcColumns : PValue := .vlist [.aStr "time", .aStr "flux"]

def psLC : ParSet :=
  ⟨"lcsyn", [("ref", .vstr "lc01"), ("columns", lcColumns),
             ("time", .vlist []), ("flux", .vlist [])]⟩

def psBol : ParSet :=
  ⟨"lcsyn", [("ref", .vstr "__bol"), ("columns", lcColumns),
             ("time", .vlist []), ("flux", .vlist [])]⟩

def rsLC : ParSet :=
  ⟨"lcsyn", [("ref", .vstr "lc01"), ("columns", lcColumns),
             ("time", .vlist [.aNum 1]), ("flux", .vlist [.aNum 10])]⟩

def mergedLC : ParSet :=
  ⟨"lcsyn", [("ref", .vstr "lc01"), ("columns", lcColumns),
             ("time", .vlist [.aNum 1]), ("flux", .vlist [.aNum 10])]⟩



end MergeSanity

/-! ## Backend command construction (`construct_mpirun_command`)

The Slurm and Torque branches build a shell line from the mpi ParameterSet.
Each flag fragment is embedded as its own definition mirroring the lines of
the source that compute the corresponding local variable, and the command is
the same concatenation the format string performs. -/

/-- A dynamically typed parameter value as fed to Python string formatting
(either a number or a string). -/
inductive PVal : Type
  | pnum : Nat → PVal
  | pstr : String → PVal
  deriving DecidableEq, Repr

/-- Python truthiness of a parameter value (`if not mpirun_par[...]`):
`0` and the empty string are falsy. -/
def pvTruthy : PVal → Bool
  | .pnum n => n ≠ 0
  | .pstr s => s ≠ ""

/-- Python `'{:.0f}'.format(v)`: renders a number with no decimal digits;
applied to a string it raises `ValueError` (unknown format code `f`). -/
def formatF0 : PVal → Except String String
  | .pnum n => .ok (toString n)
  | .pstr _ => .error "ValueError"

/-- The Slurm (`mpi:slurm`) resource fields of the mpi ParameterSet.
`memory` (MB) and `time` (minutes) are numeric parameters; `partition`
holds a partition name, kept dynamically typed as the formatter sees it. -/
structure SlurmPar : Type where
  np : Nat
  hostfile : String
  byslot : Bool
  python : String
  memory : Nat
  time : Nat
  partition : PVal
  deriving DecidableEq, Repr

/-- The `memory` fragment of the srun line: no flag when the field is 0. -/
def slurmMemChunk (p : SlurmPar) : String :=
  if p.memory = 0 then "" else "--mem=" ++ toString p.memory

/-- The `time_` fragment of the srun line: no flag when the field is 0. -/
def slurmTimeChunk (p : SlurmPar) : String :=
  if p.time = 0 then "" else "--time=" ++ toString p.time

/-- The `partition` fragment of the srun line: empty when the field is
falsy, otherwise `'--partition={:.0f}'.format(partition)`. -/
def slurmPartitionChunk (p : SlurmPar) : Except String String :=
  if pvTruthy p.partition = false then .ok ""
  else (formatF0 p.partition).map (fun s => "--partition=" ++ s)

/-- The `hostfile` fragment (shared by all branches). -/
def hostfileChunk (hostfile : String) : String :=
  if hostfile ≠ "" then "--hostfile " ++ hostfile else ""

/-- The `byslot` fragment (shared by all branches). -/
def byslotChunk (byslot : Bool) : String :=
  if byslot then "--byslot" else ""

/-- The srun command of the `mpi:slurm` branch of
`construct_mpirun_command`, assembled exactly as its format string does. -/
def slurmCmd (p : SlurmPar) (mpirun_loc args : String) :
    Except String String := do
  let partition ← slurmPartitionChunk p
  pure ("srun " ++ slurmTimeChunk p ++ " " ++ slurmMemChunk p ++ " " ++
    partition ++ " mpirun -np " ++ toString p.np ++ " " ++
    hostfileChunk p.hostfile ++ " " ++ byslotChunk p.byslot ++ " " ++
    p.python ++ " " ++ mpirun_loc ++ " " ++ args)

/-- The Torque (`mpi:torque`) resource fields of the mpi ParameterSet. -/
structure TorquePar : Type where
  np : Nat
  memory : Nat
  time : Nat
  nodes : Nat
  email : String
  alerts : String
  jobname : String
  deriving DecidableEq, Repr

/-- `',mppmem={:.0f}M'.format(memory)` when the field is non-zero, else
the empty string — the `memory` local of the Torque branch. -/
def torqueMemChunk (p : TorquePar) : String :=
  if p.memory ≠ 0 then ",mppmem=" ++ toString p.memory ++ "M" else ""

/-- `"%02d"` rendering of a non-negative component. -/
def pad2 (n : Nat) : String :=
  if n < 10 then "0" ++ toString n else toString n

/-- The `time_` local of the Torque branch: the minute count turned into a
`timedelta` and rendered `"%02d:%02d:%02d"` from its total seconds. -/
def torqueWalltime (minutes : Nat) : String :=
  let ts := minutes * 60
  pad2 (ts / 3600) ++ ":" ++ pad2 (ts % 3600 / 60) ++ ":" ++ pad2 (ts % 60)

/-- The `cmd` the Torque branch first builds: the echo-piped qsub line.  Its
format string interpolates `python`, `mpirun_loc`, `args`, `nodes` and
`time_` only — the computed `memory` local (`torqueMemChunk`) appears in no
placeholder of the source's format string, so it is absent here too. -/
def torqueBaseCmd (p : TorquePar) (python mpirun_loc args : String) : String :=
  "echo \"mpirun " ++ python ++ " " ++ mpirun_loc ++ " " ++ args ++
    "\" | qsub -V -l nodes=" ++ toString p.nodes ++ ",walltime=" ++
    torqueWalltime p.time

/-- The trailing flags the Torque branch appends to `cmd`:
`-M` under `if email:`, `-m` nested under it behind `if alerts:`, and `-N`
unconditionally. -/
def torqueFlagsChunk (p : TorquePar) : String :=
  (if p.email ≠ "" then
      " -M " ++ p.email ++
        (if p.alerts ≠ "" then " -m " ++ p.alerts else "")
    else "") ++ " -N " ++ p.jobname

/-- The full Torque submission line. -/
def torqueCmd (p : TorquePar) (python mpirun_loc args : String) : String :=
  torqueBaseCmd p python mpirun_loc args ++ torqueFlagsChunk p

/-- A trailing qsub flag, tagged by which field it carries. -/
inductive QFlag : Type
  | flagM : String → QFlag
  | flagm : String → QFlag
  | flagN : String → QFlag
  deriving DecidableEq, Repr

def renderQFlag : QFlag → String
  | .flagM e => " -M " ++ e
  | .flagm a => " -m " ++ a
  | .flagN j => " -N " ++ j

/-- The sequence of trailing flags the Torque branch appends, in append
order. -/
def torqueFlagList (p : TorquePar) : List QFlag :=
  (if p.email ≠ "" then
      [.flagM p.email] ++ (if p.alerts ≠ "" then [.flagm p.alerts] else [])
    else []) ++ [.flagN p.jobname]


/-! ## Torque status polling

The Torque branch monitors the submitted job with
`qstat -a <jobid>`, parsing each poll's output as
`output.split('\n')[-2].strip().split()[-2]` and leaving the loop when that
token is `'C'`, sleeping 5 seconds between polls; any exception inside the
loop body (including the index errors of the parse itself) hits the
`except: break`.  The string operations are embedded character-wise so the
parse is fully executable and provable. -/

/-- Python `s.split('\n')` on a character list (keeps empty pieces;
`''.split('\n') == ['']`). -/
def splitOnNl : List Char → List (List Char)
  | [] => [[]]
  | c :: rest =>
      if c = '\n' then [] :: splitOnNl rest
      else
        match splitOnNl rest with
        | [] => [[c]]
        | t :: ts => (c :: t) :: ts

/-- Worker for Python's no-argument `s.split()`: splits on runs of
whitespace, producing no empty tokens; `acc` holds the reversed current
token. -/
def wsSplitAux : List Char → List Char → List (List Char)
  | [], acc => if acc = [] then [] else [acc.reverse]
  | c :: rest, acc =>
      if c.isWhitespace then
        if acc = [] then wsSplitAux rest []
        else acc.reverse :: wsSplitAux rest []
      else wsSplitAux rest (c :: acc)

/-- Python `s.split()` (no argument). -/
def wsSplit (s : List Char) : List (List Char) :=
  wsSplitAux s []

/-- Python `s.strip()`: drop leading and trailing whitespace. -/
def stripChars (s : List Char) : List Char :=
  (((s.dropWhile Char.isWhitespace).reverse.dropWhile Char.isWhitespace)).reverse

/-- Python `l[-2]`: the second-to-last element; `IndexError` when the list
has fewer than two elements. -/
def pyIdxNeg2 {α : Type} (l : List α) : Except Unit α :=
  if h : 2 ≤ l.length then .ok (l.get ⟨l.length - 2, by omega⟩)
  else .error ()

/-- The status parse of one poll:
`output.split('\n')[-2].strip().split()[-2]`, with any Python `IndexError`
reported as the error case. -/
def parseStatus (output : String) : Except Unit String := do
  let line ← pyIdxNeg2 (splitOnNl output.data)
  let tok ← pyIdxNeg2 (wsSplit (stripChars line))
  pure (String.mk tok)

/-- Modelled from the spec's wording for the same parse: "parses the
second-to-last line of output and extracts the second-to-last
whitespace-delimited token as the status code" — no strip step. -/
def specStatusToken (output : String) : Except Unit String := do
  let line ← pyIdxNeg2 (splitOnNl output.data)
  let tok ← pyIdxNeg2 (wsSplit line)
  pure (String.mk tok)

/-- One iteration's interaction with `qstat`: either its captured output or
an exception raised while polling. -/
inductive PollEvent : Type
  | ok : String → PollEvent
  | exn : PollEvent
  deriving DecidableEq, Repr

/-- How the polling loop ended. -/
inductive LoopExit : Type
  | complete : LoopExit
  | errorBreak : LoopExit
  deriving DecidableEq, Repr

/-- The `while True` monitor loop of the Torque branch, driven by the
sequence of poll outcomes; returns how it exited together with the total
time slept inside the loop, or `none` when the event list runs out with the
loop still going. -/
def pollLoop : List PollEvent → Option (LoopExit × Nat)
  | [] => none
  | .exn :: _ => some (.errorBreak, 0)
  | .ok out :: rest =>
      match parseStatus out with
      | .error _ => some (.errorBreak, 0)
      | .ok st =>
          if st = "C" then some (.complete, 0)
          else (pollLoop rest).map (fun p => (p.1, p.2 + 5))

/-- The `flag` the Torque branch returns: `1` when the submission phase
itself raises, else `0` once the monitor loop exits — by completion or by a
swallowed polling error alike. -/
def torqueFlag (submitOk : Bool) (events : List PollEvent) : Option Nat :=
  if submitOk then (pollLoop events).map (fun _ => 0) else some 1

/-! ## The dispatch controller (`do_run` from the `mpirun` decorator) -/

/-- The mpi ParameterSet fields `do_run` itself consults. -/
structure MpiPar : Type where
  np : Nat
  deriving DecidableEq, Repr

/-- The external world of one distributed attempt: the flag
`construct_mpirun_command` comes back with, whether `pickle.load` of the
result file succeeds, and the replica body it yields when it does. -/
structure RunEnv : Type where
  submitFlag : Nat
  deserOk : Bool
  results : Body
  deriving Repr

/-- An exception escaping `do_run`. -/
inductive RunErr : Type
  | configError : RunErr
  | systemExit : RunErr
  | serializationError : RunErr
  | mergeErr : String → RunErr
  deriving DecidableEq, Repr

/-- What `do_run` hands back to its caller: a returned value (`some` the
wrapped function's output on the fast path, `none` for Python's implicit
`None`) or a raised exception. -/
inductive Outcome : Type
  | ret : Option Nat → Outcome
  | raised : RunErr → Outcome
  deriving DecidableEq, Repr

/-- Which of the three pickle artifacts (system, args, kwargs) exist on
disk. -/
structure FileState : Type where
  sysFile : Bool
  argsFile : Bool
  kwargsFile : Bool
  deriving DecidableEq, Repr

def noFiles : FileState := ⟨false, false, false⟩

def allFiles : FileState := ⟨true, true, true⟩

/-- The cleanup block after the try/except: each file is unlinked if it
exists, so every flag ends up false. -/
def cleanupFiles (_ : FileState) : FileState := noFiles

/-- The observable result of one `do_run` call: its outcome, the artifact
files left on disk, and the caller's system object (mutated in place by the
merge on a successful distributed run). -/
structure RunResult : Type where
  outcome : Outcome
  files : FileState
  system : Body
  deriving Repr

/-- `do_run(system, *args, **kwargs)`: with no `mpi` keyword, call the
wrapped function directly and return its output.  Otherwise validate
`np >= 2` (raising `ValueError` before anything is written), pickle the
three artifacts, run `construct_mpirun_command`, and on a non-zero flag
`sys.exit(1)`; reload and merge the results otherwise.  Every exception of
the try block is re-raised by the bare `except: raise`, and the cleanup
block stands *after* that handler (the source's `finally:` is commented
out), so the unlink calls run only when the try block completes; they are
followed by the post-processing calls on the merged system (external
physics calls, not modelled).  The wrapped function is the parameter
`fctn`, its output modelled as a number. -/
def do_run (fctn : Body → Nat) (mpi : Option MpiPar) (env : RunEnv)
    (system : Body) : RunResult :=
  match mpi with
  | none => ⟨.ret (some (fctn system)), noFiles, system⟩
  | some par =>
      if par.np ≤ 1 then ⟨.raised .configError, noFiles, system⟩
      else
        let files := allFiles
        if env.submitFlag ≠ 0 then ⟨.raised .systemExit, files, system⟩
        else if env.deserOk = false then
          ⟨.raised .serializationError, files, system⟩
        else
          match merge_synthetic [system, env.results] with
          | .error e => ⟨.raised (.mergeErr e), files, system⟩
          | .ok merged => ⟨.ret none, cleanupFiles files, merged⟩

section PollSanity



end PollSanity

/-- Python dict keys are unique; a ParameterSet read from the source data
model satisfies this. -/
def nodupKeys (ps : ParSet) : Prop :=
  (ps.entries.map Prod.fst).Nodup

instance (ps : ParSet) : Decidable (nodupKeys ps) := by
  unfold nodupKeys; infer_instance

/-- A key of the replica participates in the merge unless excluded by the
`columns` membership check. -/
def eligibleKey (rep : ParSet) (k : String) : Bool :=
  !(skipByColumns rep k)

/-- A list grown by `n` extra copies of itself, as `n` identical replicas
append it. -/
def repList (n : Nat) (l : List PAtom) : List PAtom :=
  l ++ (List.replicate n l).flatten

/-- The effect of `n` identical self-merges on one entry: an eligible list
value is replaced by `repList n` of itself, everything else is untouched. -/
def entryStep (rep : ParSet) (n : Nat) : String × PValue → String × PValue
  | (k, .vlist l) =>
      if eligibleKey rep k then (k, .vlist (repList n l)) else (k, .vlist l)
  | kv => kv

/-- The ParameterSet after folding in `n` replicas identical to itself. -/
def selfMerged (n : Nat) (ps : ParSet) : ParSet :=
  if ps.context.takeRight 3 = "syn" then
    { ps with entries := ps.entries.map (entryStep ps n) }
  else ps

/-- Appending every list entry onto itself — what folding one identical
replica does when the `columns` check excludes nothing. -/
def appendSelfAll : String × PValue → String × PValue
  | (k, .vlist l) => (k, .vlist (l ++ l))
  | kv => kv

/-- A synthetic ParameterSet carrying no `columns` entry. -/
def noColPS : ParSet :=
  ⟨"rvsyn", [("time", .vlist [.aNum 1]), ("rv", .vlist [.aNum 5]),
             ("ref", .vstr "rv01")]⟩

/-! ## Lemmas: the strip step does not change the whitespace tokenisation -/

theorem wsSplitAux_dropWhile (s : List Char) :
    wsSplitAux (s.dropWhile Char.isWhitespace) [] = wsSplitAux s [] := by
  induction s with
  | nil => rfl
  | cons c rest ih =>
      by_cases hc : c.isWhitespace
      · simp [List.dropWhile_cons, hc, wsSplitAux, ih]
      · simp [List.dropWhile_cons, hc]

theorem wsSplitAux_all_ws (t : List Char)
    (ht : ∀ c ∈ t, c.isWhitespace) (acc : List Char) :
    wsSplitAux t acc = if acc = [] then [] else [acc.reverse] := by
  induction t generalizing acc with
  | nil => rfl
  | cons c rest ih =>
      have hc : c.isWhitespace := ht c (by simp)
      have hrest : ∀ c ∈ rest, c.isWhitespace := fun c hm => ht c (by simp [hm])
      by_cases ha : acc = []
      · simp [wsSplitAux, hc, ha, ih hrest]
      · simp [wsSplitAux, hc, ha, ih hrest]

theorem wsSplitAux_append_ws (s t : List Char)
    (ht : ∀ c ∈ t, c.isWhitespace) (acc : List Char) :
    wsSplitAux (s ++ t) acc = wsSplitAux s acc := by
  induction s generalizing acc with
  | nil => simpa [wsSplitAux] using wsSplitAux_all_ws t ht acc
  | cons c rest ih =>
      by_cases hc : c.isWhitespace
      · by_cases ha : acc = [] <;> simp [wsSplitAux, hc, ha, ih]
      · simp [wsSplitAux, hc, ih]

theorem wsSplit_stripChars (s : List Char) :
    wsSplit (stripChars s) = wsSplit s := by
  unfold wsSplit stripChars
  set u := s.dropWhile Char.isWhitespace with hu
  have hdecomp :
      u = (u.reverse.dropWhile Char.isWhitespace).reverse ++
        (u.reverse.takeWhile Char.isWhitespace).reverse := by
    have h1 :
        u.reverse.takeWhile Char.isWhitespace ++
          u.reverse.dropWhile Char.isWhitespace = u.reverse :=
      List.takeWhile_append_dropWhile _ _
    calc u = u.reverse.reverse := by simp
    _ = (u.reverse.takeWhile Char.isWhitespace ++
          u.reverse.dropWhile Char.isWhitespace).reverse := by rw [h1]
    _ = (u.reverse.dropWhile Char.isWhitespace).reverse ++
          (u.reverse.takeWhile Char.isWhitespace).reverse := by
        rw [List.reverse_append]
  have hws : ∀ c ∈ (u.reverse.takeWhile Char.isWhitespace).reverse,
      c.isWhitespace := by
    intro c hc
    exact List.mem_takeWhile_imp (List.mem_reverse.mp hc)
  calc wsSplitAux (u.reverse.dropWhile Char.isWhitespace).reverse [] =
      wsSplitAux ((u.reverse.dropWhile Char.isWhitespace).reverse ++
        (u.reverse.takeWhile Char.isWhitespace).reverse) [] := by
        rw [wsSplitAux_append_ws _ _ hws]
  _ = wsSplitAux u [] := by rw [← hdecomp]
  _ = wsSplitAux s [] := wsSplitAux_dropWhile s

theorem parseStatus_eq_spec (output : String) :
    parseStatus output = specStatusToken output := by
  unfold parseStatus specStatusToken
  cases h : pyIdxNeg2 (splitOnNl output.data) with
  | error e => rfl
  | ok line => simp [h, wsSplit_stripChars]

/-! ## Lemmas: merging identical replicas -/

theorem repList_zero (l : List PAtom) : repList 0 l = l := by
  simp [repList]

theorem repList_succ (j : Nat) (l : List PAtom) :
    repList j l ++ l = repList (j + 1) l := by
  have hcomm : ∀ m : Nat, (List.replicate m l).flatten ++ l =
      l ++ (List.replicate m l).flatten := by
    intro m
    induction m with
    | zero => simp
    | succ m ih => simp [List.replicate_succ, List.flatten, List.append_assoc, ih]
  simp [repList, List.replicate_succ, List.flatten, List.append_assoc, hcomm]

theorem repList_length (n : Nat) (l : List PAtom) :
    (repList n l).length = (n + 1) * l.length := by
  simp [repList, Nat.succ_mul, Nat.mul_comm]
  ring

theorem entryStep_zero (rep : ParSet) (kv : String × PValue) :
    entryStep rep 0 kv = kv := by
  obtain ⟨k, v⟩ := kv
  cases v <;> simp [entryStep, repList_zero]

theorem entryStep_fst (rep : ParSet) (n : Nat) (kv : String × PValue) :
    (entryStep rep n kv).1 = kv.1 := by
  obtain ⟨k, v⟩ := kv
  cases v with
  | vlist l =>
      simp only [entryStep]
      split <;> rfl
  | vnum n => rfl
  | vstr s => rfl

theorem selfMerged_zero (ps : ParSet) : selfMerged 0 ps = ps := by
  unfold selfMerged
  split
  · have h : ps.entries.map (entryStep ps 0) = ps.entries := by
      calc ps.entries.map (entryStep ps 0) = ps.entries.map id :=
        List.map_congr_left (fun kv _ => entryStep_zero ps kv)
      _ = ps.entries := List.map_id _
    rw [h]
  · rfl

theorem map_fst_map_entryStep (rep : ParSet) (n : Nat)
    (A : List (String × PValue)) :
    (A.map (entryStep rep n)).map Prod.fst = A.map Prod.fst := by
  induction A with
  | nil => rfl
  | cons kv rest ih => simp [entryStep_fst, ih]

theorem lookupKey_append_of_not_mem (A B : List (String × PValue))
    (k : String) (hk : k ∉ A.map Prod.fst) :
    lookupKey (A ++ B) k = lookupKey B k := by
  induction A with
  | nil => rfl
  | cons kv rest ih =>
      obtain ⟨k', v'⟩ := kv
      have hne : k' ≠ k := by
        intro he; exact hk (by simp [he])
      have hrest : k ∉ rest.map Prod.fst := fun hm => hk (by simp [hm])
      simp [lookupKey, hne, ih hrest]

theorem setKey_append_of_not_mem (A B : List (String × PValue))
    (k : String) (v : PValue) (hk : k ∉ A.map Prod.fst) :
    setKey (A ++ B) k v = A ++ setKey B k v := by
  induction A with
  | nil => rfl
  | cons kv rest ih =>
      obtain ⟨k', v'⟩ := kv
      have hne : k' ≠ k := by
        intro he; exact hk (by simp [he])
      have hrest : k ∉ rest.map Prod.fst := fun hm => hk (by simp [hm])
      simp [setKey, hne, ih hrest]

theorem mergeKeys_cons_skip (rep prim : ParSet) (k : String) (v : PValue)
    (rest : List (String × PValue)) (hskip : skipByColumns rep k = true) :
    mergeKeys rep prim ((k, v) :: rest) = mergeKeys rep prim rest := by
  simp [mergeKeys, hskip]

theorem mergeKeys_cons_vlist (rep prim : ParSet) (k : String)
    (l : List PAtom) (rest : List (String × PValue)) (X : ParSet)
    (hskip : skipByColumns rep k = false)
    (hpy : pyListAdd prim k l = .ok X) :
    mergeKeys rep prim ((k, .vlist l) :: rest) = mergeKeys rep X rest := by
  have h1 : mergeKeys rep prim ((k, .vlist l) :: rest) =
      if skipByColumns rep k = true then mergeKeys rep prim rest
      else Except.bind (pyListAdd prim k l) (fun p => mergeKeys rep p rest) :=
    rfl
  rw [h1, hskip, hpy]
  rfl

/-- The key loop folding one identical replica into a partially self-merged
primary advances every remaining entry by one replica's worth. -/
theorem mergeKeys_selfStep (rep : ParSet) (j : Nat) (c : String) :
    ∀ (B A : List (String × PValue)),
    ((A ++ B).map Prod.fst).Nodup →
    mergeKeys rep
      ⟨c, A.map (entryStep rep (j + 1)) ++ B.map (entryStep rep j)⟩ B =
      .ok ⟨c, (A ++ B).map (entryStep rep (j + 1))⟩ := by
  intro B
  induction B with
  | nil => intro A _; simp [mergeKeys]
  | cons kv B' ih =>
      intro A hnd
      obtain ⟨k, v⟩ := kv
      have hknotA : k ∉ A.map Prod.fst := by
        have h2 : (k :: (A.map Prod.fst ++ B'.map Prod.fst)).Nodup :=
          List.nodup_middle.mp (by simpa using hnd)
        have h3 := (List.nodup_cons.mp h2).1
        intro hm
        exact h3 (List.mem_append.mpr (Or.inl hm))
      have hknotA' :
          k ∉ (A.map (entryStep rep (j + 1))).map Prod.fst := by
        rw [map_fst_map_entryStep]
        exact hknotA
      have hnd' : ((A ++ [(k, v)] ++ B').map Prod.fst).Nodup := by
        simpa [List.append_assoc] using hnd
      by_cases hskip : skipByColumns rep k
      · have helig : eligibleKey rep k = false := by
          simp [eligibleKey, hskip]
        have hstep : ∀ m : Nat, entryStep rep m (k, v) = (k, v) := by
          intro m; cases v <;> simp [entryStep, helig]
        have hthis := ih (A ++ [(k, v)]) hnd'
        rw [List.map_cons, hstep j, mergeKeys_cons_skip rep _ k v B' hskip]
        have hentries :
            A.map (entryStep rep (j + 1)) ++ (k, v) ::
                B'.map (entryStep rep j) =
              (A ++ [(k, v)]).map (entryStep rep (j + 1)) ++
                B'.map (entryStep rep j) := by
          simp [hstep (j + 1)]
        rw [hentries]
        rw [hthis]
        simp [List.append_assoc]
      · have hskipf : skipByColumns rep k = false := by
          simpa using hskip
        cases v with
        | vlist l =>
            have helig : eligibleKey rep k = true := by
              simp [eligibleKey, hskip]
            have hlook :
                lookupKey (A.map (entryStep rep (j + 1)) ++
                  (k, .vlist (repList j l)) :: B'.map (entryStep rep j)) k =
                  some (.vlist (repList j l)) := by
              rw [lookupKey_append_of_not_mem _ _ _ hknotA']
              simp [lookupKey]
            have hset :
                setKey (A.map (entryStep rep (j + 1)) ++
                    (k, .vlist (repList j l)) :: B'.map (entryStep rep j)) k
                    (.vlist (repList (j + 1) l)) =
                  A.map (entryStep rep (j + 1)) ++
                    (k, .vlist (repList (j + 1) l)) ::
                      B'.map (entryStep rep j) := by
              rw [setKey_append_of_not_mem _ _ _ _ hknotA']
              simp [setKey]
            have hpy :
                pyListAdd
                  ⟨c, A.map (entryStep rep (j + 1)) ++
                    (k, .vlist (repList j l)) :: B'.map (entryStep rep j)⟩ k l =
                  .ok ⟨c, A.map (entryStep rep (j + 1)) ++
                    (k, .vlist (repList (j + 1) l)) ::
                      B'.map (entryStep rep j)⟩ := by
              simp [pyListAdd, ParSet.lookup, hlook, ParSet.set, hset,
                repList_succ]
            have hthis := ih (A ++ [(k, .vlist l)]) hnd'
            have hstepj : entryStep rep j (k, .vlist l) =
                (k, .vlist (repList j l)) := by
              simp [entryStep, helig]
            rw [List.map_cons, hstepj,
              mergeKeys_cons_vlist rep _ k l B' _ hskipf hpy]
            have hrec' :
                mergeKeys rep
                  ⟨c, A.map (entryStep rep (j + 1)) ++
                    (k, .vlist (repList (j + 1) l)) ::
                      B'.map (entryStep rep j)⟩ B' =
                  .ok ⟨c, (A ++ (k, PValue.vlist l) :: B').map
                    (entryStep rep (j + 1))⟩ := by
              have hA :
                  (A ++ [(k, PValue.vlist l)]).map (entryStep rep (j + 1)) =
                    A.map (entryStep rep (j + 1)) ++
                      [(k, PValue.vlist (repList (j + 1) l))] := by
                simp [entryStep, helig]
              have := hthis
              rw [hA] at this
              simpa [List.append_assoc] using this
            exact hrec'
        | vnum n =>
            have hstep : ∀ m : Nat, entryStep rep m (k, .vnum n) = (k, .vnum n) := by
              intro m; simp [entryStep]
            have hthis := ih (A ++ [(k, .vnum n)]) hnd'
            rw [List.map_cons, hstep j]
            have hgoal :
                mergeKeys rep
                  ⟨c, A.map (entryStep rep (j + 1)) ++ (k, PValue.vnum n) ::
                    B'.map (entryStep rep j)⟩ ((k, PValue.vnum n) :: B') =
                mergeKeys rep
                  ⟨c, A.map (entryStep rep (j + 1)) ++ (k, PValue.vnum n) ::
                    B'.map (entryStep rep j)⟩ B' := by
              simp [mergeKeys, hskip]
            rw [hgoal]
            have hentries :
                A.map (entryStep rep (j + 1)) ++ (k, PValue.vnum n) ::
                    B'.map (entryStep rep j) =
                  (A ++ [(k, PValue.vnum n)]).map (entryStep rep (j + 1)) ++
                    B'.map (entryStep rep j) := by
              simp [hstep (j + 1)]
            rw [hentries, hthis]
            simp [List.append_assoc]
        | vstr s =>
            have hstep : ∀ m : Nat, entryStep rep m (k, .vstr s) = (k, .vstr s) := by
              intro m; simp [entryStep]
            have hthis := ih (A ++ [(k, .vstr s)]) hnd'
            rw [List.map_cons, hstep j]
            have hgoal :
                mergeKeys rep
                  ⟨c, A.map (entryStep rep (j + 1)) ++ (k, PValue.vstr s) ::
                    B'.map (entryStep rep j)⟩ ((k, PValue.vstr s) :: B') =
                mergeKeys rep
                  ⟨c, A.map (entryStep rep (j + 1)) ++ (k, PValue.vstr s) ::
                    B'.map (entryStep rep j)⟩ B' := by
              simp [mergeKeys, hskip]
            rw [hgoal]
            have hentries :
                A.map (entryStep rep (j + 1)) ++ (k, PValue.vstr s) ::
                    B'.map (entryStep rep j) =
                  (A ++ [(k, PValue.vstr s)]).map (entryStep rep (j + 1)) ++
                    B'.map (entryStep rep j) := by
              simp [hstep (j + 1)]
            rw [hentries, hthis]
            simp [List.append_assoc]

/-- Folding one more identical replica into a `j`-fold self-merged
ParameterSet yields the `j+1`-fold self-merge. -/
theorem mergeOne_selfMerged (rep : ParSet) (j : Nat) (hnd : nodupKeys rep) :
    mergeOne (selfMerged j rep) rep = .ok (selfMerged (j + 1) rep) := by
  by_cases hctx : rep.context.takeRight 3 = "syn"
  · have hself : ∀ m : Nat, selfMerged m rep =
        ⟨rep.context, rep.entries.map (entryStep rep m)⟩ := by
      intro m
      simp [selfMerged, hctx]
    rw [hself j, hself (j + 1)]
    unfold mergeOne
    rw [if_pos hctx]
    have := mergeKeys_selfStep rep j rep.context rep.entries [] (by simpa using hnd)
    simpa using this
  · unfold mergeOne
    rw [if_neg hctx]
    unfold selfMerged
    rw [if_neg hctx, if_neg hctx]

/-- Folding `N` identical replicas one after another. -/
theorem foldlM_mergeOne_replicate (rep : ParSet) (hnd : nodupKeys rep) :
    ∀ (N j : Nat),
    (List.replicate N rep).foldlM mergeOne (selfMerged j rep) =
      .ok (selfMerged (j + N) rep) := by
  intro N
  induction N with
  | zero => intro j; rfl
  | succ N ih =>
      intro j
      rw [List.replicate_succ]
      have h1 : (rep :: List.replicate N rep).foldlM mergeOne
          (selfMerged j rep) =
          Except.bind (mergeOne (selfMerged j rep) rep)
            (fun s => (List.replicate N rep).foldlM mergeOne s) := rfl
      rw [h1, mergeOne_selfMerged rep j hnd]
      have h2 : Except.bind (Except.ok (selfMerged (j + 1) rep))
          (fun s => (List.replicate N rep).foldlM mergeOne s) =
          (List.replicate N rep).foldlM mergeOne (selfMerged (j + 1) rep) := rfl
      rw [h2, ih (j + 1)]
      have h3 : j + 1 + N = j + (N + 1) := by omega
      rw [h3]

theorem popHeads_replicate (N : Nat) (ps : ParSet) (ptl : Body) :
    popHeads (List.replicate N (ps :: ptl)) =
      some (List.replicate N ps, List.replicate N ptl) := by
  induction N with
  | zero => rfl
  | succ N ih => simp [List.replicate_succ, popHeads, ih]

/-- `merge_synthetic` over a primary and `N` replicas identical to it:
every body position becomes its `N`-fold self-merge. -/
theorem merge_synthetic_replicate (P : Body) (N : Nat)
    (hnd : ∀ ps ∈ P, nodupKeys ps) :
    merge_synthetic (P :: List.replicate N P) = .ok (P.map (selfMerged N)) := by
  show mergeBodies P (List.replicate N P) = .ok (P.map (selfMerged N))
  induction P with
  | nil =>
      cases N with
      | zero => rfl
      | succ N => rfl
  | cons ps ptl ih =>
      have hps : nodupKeys ps := hnd ps (by simp)
      have hptl : ∀ q ∈ ptl, nodupKeys q := fun q hq => hnd q (by simp [hq])
      have h1 : mergeBodies (ps :: ptl) (List.replicate N (ps :: ptl)) =
          Except.bind ((List.replicate N ps).foldlM mergeOne ps)
            (fun merged => Except.bind (mergeBodies ptl (List.replicate N ptl))
              (fun tl => Except.ok (merged :: tl))) := by
        conv_lhs => rw [mergeBodies]
        rw [popHeads_replicate]
        rfl
      have hfold : (List.replicate N ps).foldlM mergeOne ps =
          .ok (selfMerged N ps) := by
        have h := foldlM_mergeOne_replicate ps hps N 0
        rw [selfMerged_zero] at h
        simpa using h
      have hih : mergeBodies ptl (List.replicate N ptl) =
          .ok (ptl.map (selfMerged N)) := ih hptl
      rw [h1, hfold]
      have h2 : Except.bind (Except.ok (selfMerged N ps))
          (fun merged => Except.bind (mergeBodies ptl (List.replicate N ptl))
            (fun tl => Except.ok (merged :: tl))) =
          Except.bind (mergeBodies ptl (List.replicate N ptl))
            (fun tl => Except.ok (selfMerged N ps :: tl)) := rfl
      rw [h2, hih]
      rfl

/-- Merging a list holding a single body never touches it. -/
theorem merge_synthetic_single (P : Body) : merge_synthetic [P] = .ok P := by
  show mergeBodies P [] = .ok P
  induction P with
  | nil => rfl
  | cons ps ptl ih =>
      have h1 : mergeBodies (ps :: ptl) ([] : List Body) =
          Except.bind (([] : List ParSet).foldlM mergeOne ps)
            (fun merged => Except.bind (mergeBodies ptl [])
              (fun tl => Except.ok (merged :: tl))) := rfl
      rw [h1, ih]
      rfl

/-- Once one replica's walk is exhausted, the remaining primary positions
pass through untouched. -/
theorem mergeBodies_exhausted (ptl : Body) :
    mergeBodies ptl [([] : List ParSet)] = .ok ptl := by
  cases ptl with
  | nil => rfl
  | cons x xs => rfl

/-- The replica of a two-body merge is folded into the primary's head when
the replica walk holds a single ParameterSet; the primary's tail is
untouched. -/
theorem merge_synthetic_short_replica (p1 : ParSet) (ptl : Body)
    (r1 q1 : ParSet) (hm : mergeOne p1 r1 = .ok q1) :
    merge_synthetic [p1 :: ptl, [r1]] = .ok (q1 :: ptl) := by
  show mergeBodies (p1 :: ptl) [[r1]] = .ok (q1 :: ptl)
  have h1 : mergeBodies (p1 :: ptl) [[r1]] =
      Except.bind (([r1] : List ParSet).foldlM mergeOne p1)
        (fun merged => Except.bind (mergeBodies ptl [([] : List ParSet)])
          (fun tl => Except.ok (merged :: tl))) := rfl
  have h2 : ([r1] : List ParSet).foldlM mergeOne p1 =
      Except.bind (mergeOne p1 r1)
        (fun s => (([] : List ParSet).foldlM mergeOne s)) := rfl
  rw [h1, h2, hm, mergeBodies_exhausted]
  rfl

/-! ## Sanity evaluations -/

example : mergeOne psLC rsLC = .ok mergedLC := by rfl

example : merge_synthetic [[psLC, psBol], [rsLC]] = .ok [mergedLC, psBol] := by
  rfl

example : merge_synthetic [[psLC, psBol]] = .ok [psLC, psBol] := by rfl

theorem torqueFlagsChunk_eq_join (p : TorquePar) :
    torqueFlagsChunk p = String.join ((torqueFlagList p).map renderQFlag) := by
  unfold torqueFlagsChunk torqueFlagList
  by_cases he : p.email = "" <;> by_cases ha : p.alerts = "" <;>
    simp [he, ha, String.join, renderQFlag, String.append_assoc]

example : torqueWalltime 90 = "01:30:00" := by rfl

example : torqueMemChunk ⟨4, 512, 90, 5, "", "", "j"⟩ = ",mppmem=512M" := by rfl

example :
    slurmCmd ⟨4, "", false, "python", 0, 0, .pstr "debug"⟩ "loc" "a" =
      .error "ValueError" := by rfl

example : parseStatus "head\nJob1 usr q C tail\n" = .ok "C" := by rfl

example : parseStatus "" = .error () := by rfl

example : pollLoop [.ok "h\na b R c\n", .ok "h\na b C c\n"] =
    some (.complete, 5) := by rfl

example : torqueFlag true [.exn] = some 0 := by rfl

/-! ## Claims -/

/-- Claim C1: the design requires removal of the three pickle artifacts on
every exit path of a distributed dispatch attempt.  The embedded `do_run`
shows the code does not honour this: on a submission failure (non-zero
flag, `sys.exit(1)` re-raised by the bare `except: raise`) and on a
deserialization failure, the unlink block — placed after the handler
because the source's `finally:` is commented out — never executes and all
three artifacts remain on disk; only the normal path removes them. -/
theorem claim_C1_cleanup_skipped_on_failure :
    (do_run (fun _ => 0) (some ⟨2⟩) ⟨1, true, []⟩ []).files = allFiles ∧
    (do_run (fun _ => 0) (some ⟨2⟩) ⟨1, true, []⟩ []).outcome =
      .raised .systemExit ∧
    (do_run (fun _ => 0) (some ⟨2⟩) ⟨0, false, []⟩ []).files = allFiles ∧
    (do_run (fun _ => 0) (some ⟨2⟩) ⟨0, false, []⟩ []).outcome =
      .raised .serializationError ∧
    (do_run (fun _ => 0) (some ⟨2⟩) ⟨0, true, []⟩ []).files = noFiles :=
  ⟨rfl, rfl, rfl, rfl, rfl⟩

/-- Claim C2: each Torque poll parses the second-to-last line of the
status output and takes its second-to-last whitespace token (the embedded
parse agrees with that reading on every output); the loop exits on the
literal 'C', otherwise sleeps 5 and polls again; any error raised while
polling ends the loop at once and the branch still reports exitFlag 0. -/
theorem claim_C2_torque_polling (rest : List PollEvent)
    (out1 out2 out3 st : String)
    (h1 : parseStatus out1 = .ok "C")
    (h2 : parseStatus out2 = .ok st) (hne : st ≠ "C")
    (h3 : parseStatus out3 = .error ()) :
    pollLoop (.exn :: rest) = some (.errorBreak, 0) ∧
    torqueFlag true (.exn :: rest) = some 0 ∧
    pollLoop (.ok out1 :: rest) = some (.complete, 0) ∧
    pollLoop (.ok out2 :: rest) =
      (pollLoop rest).map (fun p => (p.1, p.2 + 5)) ∧
    pollLoop (.ok out3 :: rest) = some (.errorBreak, 0) ∧
    (∀ out, parseStatus out = specStatusToken out) := by
  refine ⟨rfl, rfl, ?_, ?_, ?_, parseStatus_eq_spec⟩
  · simp [pollLoop, h1]
  · simp [pollLoop, h2, hne]
  · simp [pollLoop, h3]

theorem claim_C2_witness :
    pollLoop [PollEvent.ok "h\nJ u q C t\n"] = some (.complete, 0) ∧
    torqueFlag true [PollEvent.exn] = some 0 :=
  ⟨(claim_C2_torque_polling [] "h\nJ u q C t\n" "h\nJ u q R t\n" "" "R"
      (by rfl) (by rfl) (by decide) (by rfl)).2.2.1,
   (claim_C2_torque_polling [] "h\nJ u q C t\n" "h\nJ u q R t\n" "" "R"
      (by rfl) (by rfl) (by decide) (by rfl)).2.1⟩

/-- Claim C3 counterexample: a replica whose dataset-reference set is
smaller than the primary's (only `lc01`, the primary also has `__bol`)
merges with no error at all, and the primary's first dataset is modified —
the claimed fatal `MergeError` with an unchanged primary does not occur. -/
theorem claim_C3_counterexample :
    merge_synthetic [[psLC, psBol], [rsLC]] = .ok [mergedLC, psBol] ∧
    mergedLC ≠ psLC :=
  ⟨rfl, by decide⟩

/-- Claim C3 (amended): `merge_synthetic` performs no structural
validation.  With a replica walk shorter than the primary's, the lockstep
zip folds the replica into the primary's matching prefix and stops there:
the primary's remaining ParameterSets pass through untouched, no error is
raised, and the primary is partially merged in place. -/
theorem claim_C3_mismatch_merges_prefix (p1 : ParSet) (ptl : Body)
    (r1 q1 : ParSet) (hm : mergeOne p1 r1 = .ok q1) :
    merge_synthetic [p1 :: ptl, [r1]] = .ok (q1 :: ptl) :=
  merge_synthetic_short_replica p1 ptl r1 q1 hm

theorem claim_C3_witness :
    merge_synthetic [[psLC, psBol], [rsLC]] = .ok (mergedLC :: [psBol]) :=
  claim_C3_mismatch_merges_prefix psLC [psBol] rsLC mergedLC (by rfl)

/-- Claim C4: with distribution requested and `np <= 1`, `do_run` raises
the `ValueError` configuration error before anything external happens: the
result is the same for every environment (so no process outcome is ever
consulted) and no artifact file is created. -/
theorem claim_C4_np_validation (fctn : Body → Nat) (par : MpiPar)
    (env : RunEnv) (system : Body) (h : par.np ≤ 1) :
    do_run fctn (some par) env system =
      ⟨.raised .configError, noFiles, system⟩ := by
  simp [do_run, h]

theorem claim_C4_witness :
    (1 : Nat) ≤ 1 ∧
    do_run (fun _ => 0) (some ⟨1⟩) ⟨1, true, []⟩ [] =
      ⟨.raised .configError, noFiles, []⟩ :=
  ⟨by decide,
   claim_C4_np_validation (fun _ => 0) ⟨1⟩ ⟨1, true, []⟩ [] (by decide)⟩

/-- Claim C5: the Slurm memory/time/partition fragments are emitted only
when the field is non-zero/non-empty, and an empty partition yields no
`--partition` fragment at all.  A non-empty partition NAME, however, is not
rendered: the source formats the partition with the float code `{:.0f}`
(copied from the numeric memory/time lines), so building the command raises
`ValueError` instead of emitting `--partition=<name>`. -/
theorem claim_C5_slurm_flags (p : SlurmPar) (loc args name : String) :
    (p.memory = 0 → slurmMemChunk p = "") ∧
    (p.memory ≠ 0 → slurmMemChunk p = "--mem=" ++ toString p.memory) ∧
    (p.time = 0 → slurmTimeChunk p = "") ∧
    (p.time ≠ 0 → slurmTimeChunk p = "--time=" ++ toString p.time) ∧
    (p.partition = .pstr "" →
      slurmCmd p loc args = .ok ("srun " ++ slurmTimeChunk p ++ " " ++
        slurmMemChunk p ++ " " ++ "" ++ " mpirun -np " ++ toString p.np ++
        " " ++ hostfileChunk p.hostfile ++ " " ++ byslotChunk p.byslot ++
        " " ++ p.python ++ " " ++ loc ++ " " ++ args)) ∧
    (p.partition = .pstr name → name ≠ "" →
      slurmCmd p loc args = .error "ValueError") := by
  refine ⟨fun h => by simp [slurmMemChunk, h],
    fun h => by simp [slurmMemChunk, h],
    fun h => by simp [slurmTimeChunk, h],
    fun h => by simp [slurmTimeChunk, h],
    fun h => ?_, fun h hn => ?_⟩
  · have hchunk : slurmPartitionChunk p = .ok "" := by
      simp [slurmPartitionChunk, h, pvTruthy]
    unfold slurmCmd
    rw [hchunk]
    rfl
  · have hchunk : slurmPartitionChunk p = .error "ValueError" := by
      simp [slurmPartitionChunk, h, pvTruthy, hn, formatF0, Except.map]
    unfold slurmCmd
    rw [hchunk]
    rfl

theorem claim_C5_witness :
    slurmMemChunk ⟨4, "", false, "python", 0, 0, .pstr "debug"⟩ = "" ∧
    slurmCmd ⟨4, "", false, "python", 0, 0, .pstr "debug"⟩ "loc" "a" =
      .error "ValueError" :=
  ⟨(claim_C5_slurm_flags ⟨4, "", false, "python", 0, 0, .pstr "debug"⟩
      "loc" "a" "debug").1 rfl,
   (claim_C5_slurm_flags ⟨4, "", false, "python", 0, 0, .pstr "debug"⟩
      "loc" "a" "debug").2.2.2.2.2 rfl (by decide)⟩

/-- Claim C6: the Torque walltime is rendered HH:MM:SS from the minute
count (90 minutes gives `01:30:00`), and the `,mppmem=<MB>M` suffix is
computed into the `memory` local only when non-zero — but that local is
dropped: the qsub format string never interpolates it, so the built
submission line is independent of the memory field and `memory=512`
produces a command with no `mppmem` anywhere. -/
theorem claim_C6_torque_walltime_memory (p : TorquePar)
    (python loc args : String) (m : Nat) :
    torqueWalltime 90 = "01:30:00" ∧
    (p.memory = 0 → torqueMemChunk p = "") ∧
    (p.memory ≠ 0 →
      torqueMemChunk p = ",mppmem=" ++ toString p.memory ++ "M") ∧
    torqueBaseCmd { p with memory := m } python loc args =
      torqueBaseCmd p python loc args ∧
    torqueCmd ⟨4, 512, 90, 5, "", "", "jobx"⟩ "py" "loc" "a" =
      "echo \"mpirun py loc a\" | qsub -V -l nodes=5,walltime=01:30:00 -N jobx" := by
  refine ⟨rfl, fun h => by simp [torqueMemChunk, h],
    fun h => by simp [torqueMemChunk, h], by simp [torqueBaseCmd], rfl⟩

theorem claim_C6_witness :
    torqueMemChunk ⟨4, 512, 90, 5, "", "", "jobx"⟩ = ",mppmem=512M" ∧
    torqueWalltime 90 = "01:30:00" :=
  ⟨(claim_C6_torque_walltime_memory ⟨4, 512, 90, 5, "", "", "jobx"⟩
      "py" "loc" "a" 0).2.2.1 (by decide),
   (claim_C6_torque_walltime_memory ⟨4, 512, 90, 5, "", "", "jobx"⟩
      "py" "loc" "a" 0).1⟩

/-- Claim C7 counterexample: with an empty email a non-empty alerts field
produces no `-m` flag (the command equals the one built with alerts empty),
and an empty jobname still gets a trailing ` -N ` appended — both
contradict "each flag appended only if the corresponding field is
non-empty" and "-m depends only on the alerts field". -/
theorem claim_C7_counterexample :
    torqueCmd ⟨4, 0, 90, 5, "", "ae", "j1"⟩ "py" "loc" "a" =
      torqueCmd ⟨4, 0, 90, 5, "", "", "j1"⟩ "py" "loc" "a" ∧
    torqueFlagsChunk ⟨4, 0, 90, 5, "", "", ""⟩ = " -N " :=
  ⟨rfl, rfl⟩

/-- Claim C7 (amended): the trailing qsub flags are appended in the order
`-M`, `-m`, `-N`; `-M` is present exactly when email is non-empty, `-m`
exactly when BOTH email and alerts are non-empty (the alerts check is
nested inside the email branch), and `-N` is appended unconditionally —
jobname empty or not — always last. -/
theorem claim_C7_flag_conditions (p : TorquePar) (python loc args : String) :
    ((∃ e, QFlag.flagM e ∈ torqueFlagList p) ↔ p.email ≠ "") ∧
    ((∃ a, QFlag.flagm a ∈ torqueFlagList p) ↔
      (p.email ≠ "" ∧ p.alerts ≠ "")) ∧
    QFlag.flagN p.jobname ∈ torqueFlagList p ∧
    (torqueFlagList p).getLast? = some (.flagN p.jobname) ∧
    (p.email ≠ "" → p.alerts ≠ "" →
      torqueFlagList p =
        [.flagM p.email, .flagm p.alerts, .flagN p.jobname]) ∧
    torqueCmd p python loc args =
      torqueBaseCmd p python loc args ++
        String.join ((torqueFlagList p).map renderQFlag) := by
  have hcmd : torqueCmd p python loc args =
      torqueBaseCmd p python loc args ++
        String.join ((torqueFlagList p).map renderQFlag) := by
    unfold torqueCmd
    rw [torqueFlagsChunk_eq_join]
  by_cases he : p.email = "" <;> by_cases ha : p.alerts = "" <;>
    simp [torqueFlagList, he, ha, hcmd]

theorem claim_C7_witness :
    QFlag.flagN "jn" ∈ torqueFlagList ⟨4, 0, 90, 5, "em", "al", "jn"⟩ ∧
    torqueFlagList ⟨4, 0, 90, 5, "em", "al", "jn"⟩ =
      [.flagM "em", .flagm "al", .flagN "jn"] :=
  ⟨(claim_C7_flag_conditions ⟨4, 0, 90, 5, "em", "al", "jn"⟩
      "py" "loc" "a").2.2.1,
   (claim_C7_flag_conditions ⟨4, 0, 90, 5, "em", "al", "jn"⟩
      "py" "loc" "a").2.2.2.2.1 (by decide) (by decide)⟩

/-- Claim C8: merging a primary with `N` replicas identical to it folds the
replicas into the primary in place and hands the primary itself back:
every merge-eligible list entry (a `syn` context, not excluded by the
`columns` membership) holds its list repeated `N+1` times — length
`(N+1) * L` by the third conjunct — every other entry and the body
structure are untouched, and merging zero replicas is a no-op returning the
primary unchanged. -/
theorem claim_C8_merge_identical_replicas (P : Body) (N : Nat)
    (hnd : ∀ ps ∈ P, nodupKeys ps) :
    merge_synthetic (P :: List.replicate N P) = .ok (P.map (selfMerged N)) ∧
    merge_synthetic [P] = .ok P ∧
    (∀ (n : Nat) (l : List PAtom),
      (repList n l).length = (n + 1) * l.length) :=
  ⟨merge_synthetic_replicate P N hnd, merge_synthetic_single P,
    fun n l => repList_length n l⟩

theorem claim_C8_witness :
    merge_synthetic [[psLC], [psLC], [psLC]] =
      .ok ([psLC].map (selfMerged 2)) :=
  (claim_C8_merge_identical_replicas [psLC] 2 (by decide)).1

/-- Claim C9: the dispatched entry point is asymmetric: without an mpi
configuration it returns the wrapped function's output; a successful
distributed run returns Python's implicit `None`, the merged state being
visible only through the caller's system object (the `system` field of the
result). -/
theorem claim_C9_return_asymmetry (fctn : Body → Nat) (env : RunEnv)
    (system merged : Body) (par : MpiPar) :
    (do_run fctn none env system).outcome = .ret (some (fctn system)) ∧
    (2 ≤ par.np → env.submitFlag = 0 → env.deserOk = true →
      merge_synthetic [system, env.results] = .ok merged →
      (do_run fctn (some par) env system).outcome = .ret none ∧
      (do_run fctn (some par) env system).system = merged) := by
  constructor
  · rfl
  · intro hnp h0 hd hm
    have hnp' : ¬ par.np ≤ 1 := by omega
    constructor <;> simp [do_run, hnp', h0, hd, hm, cleanupFiles]

theorem claim_C9_witness :
    (do_run (fun _ => 7) none ⟨0, true, []⟩ []).outcome = .ret (some 7) ∧
    (do_run (fun _ => 7) (some ⟨2⟩) ⟨0, true, []⟩ []).outcome = .ret none :=
  ⟨(claim_C9_return_asymmetry (fun _ => 7) ⟨0, true, []⟩ [] [] ⟨2⟩).1,
   ((claim_C9_return_asymmetry (fun _ => 7) ⟨0, true, []⟩ [] [] ⟨2⟩).2
      (by decide) rfl rfl (by rfl)).1⟩

/-- Claim C10: when a synthetic ParameterSet carries no `columns` entry the
membership check excludes nothing: no key is ever skipped, and folding in
one structurally matching replica appends every list-valued entry (folding
a replica equal to the primary doubles every list entry, rather than
merging nothing). -/
theorem claim_C10_no_columns_merges_all (rep : ParSet)
    (hcol : rep.hasKey "columns" = false) :
    (∀ k, skipByColumns rep k = false) ∧
    (nodupKeys rep → rep.context.takeRight 3 = "syn" →
      mergeOne rep rep =
        .ok ⟨rep.context, rep.entries.map appendSelfAll⟩) := by
  have hskip : ∀ k, skipByColumns rep k = false := by
    intro k
    simp [skipByColumns, hcol]
  refine ⟨hskip, fun hnd hctx => ?_⟩
  have h1 := mergeOne_selfMerged rep 0 hnd
  rw [selfMerged_zero] at h1
  rw [h1]
  have h2 : selfMerged 1 rep = ⟨rep.context, rep.entries.map appendSelfAll⟩ := by
    unfold selfMerged
    rw [if_pos hctx]
    have h3 : rep.entries.map (entryStep rep 1) =
        rep.entries.map appendSelfAll := by
      apply List.map_congr_left
      intro kv _
      obtain ⟨k, v⟩ := kv
      cases v with
      | vlist l =>
          simp [entryStep, appendSelfAll, eligibleKey, hskip k, repList]
      | vnum n => rfl
      | vstr s => rfl
    rw [h3]
  rw [h2]

theorem claim_C10_witness :
    skipByColumns noColPS "time" = false ∧
    mergeOne noColPS noColPS =
      .ok ⟨"rvsyn", noColPS.entries.map appendSelfAll⟩ :=
  ⟨(claim_C10_no_columns_merges_all noColPS (by decide)).1 "time",
   (claim_C10_no_columns_merges_all noColPS (by decide)).2
     (by decide) (by decide)⟩
